import Mathlib

/-!
String Analyzer core — shallow embedding

A shallow embedding of the analysis-and-query core of the string-analyzer
service (`helper.js`): `computeHash`, `analyzeString`, `parseNaturalLanguage`
and `applyFilters`, together with the spec-side characterizations they are
checked against.

JavaScript strings are modelled as lists of Unicode scalar values
(`List Char`).  JavaScript's `for (const char of value)` iteration and
`new Set(value)` both walk a string one code point at a time, which is
exactly a traversal of the `List Char`; JavaScript's `value.length`
counts UTF-16 code units and is modelled by `jsLength` (a supplementary-plane
scalar occupies two units).  Machine numbers are modelled by `Nat`/`Int`
(`% 2 ^ 32` is written out wherever 32-bit overflow matters, in the digest).
-/

/-! ## UTF-16 length (JavaScript `value.length`) -/

/-- UTF-16 code units of one scalar value: one below `U+10000`, two (a
surrogate pair) from `U+10000` up.  JavaScript `String.prototype.length`
counts these units. -/
def utf16Units (c : Char) : Nat :=
  if c.toNat < 0x10000 then 1 else 2

/-- JavaScript `value.length`: the number of UTF-16 code units. -/
def jsLength (v : List Char) : Nat :=
  (v.map utf16Units).sum

/-! ## `String.prototype.toLowerCase` -/

/-- Lowercase mapping of one character as `String.prototype.toLowerCase`
maps it (the result can be more than one character).  ASCII `A`–`Z` shift by
32.  `U+212A` (Kelvin sign, lowercases to `k`) and `U+0130` (Latin capital I
with dot above, lowercases to `i` followed by `U+0307`) are the only
characters outside ASCII whose lowercase forms contain ASCII letters or
digits, so together with the identity on everything else this covers every
character the analyzed predicates can distinguish. -/
def lowerChar (c : Char) : List Char :=
  if 'A' ≤ c ∧ c ≤ 'Z' then [Char.ofNat (c.toNat + 32)]
  else if c = Char.ofNat 0x212A then ['k']
  else if c = Char.ofNat 0x0130 then ['i', Char.ofNat 0x0307]
  else [c]

/-- JavaScript `value.toLowerCase()`. -/
def jsToLower (v : List Char) : List Char :=
  (v.map lowerChar).flatten

/-! ## Palindrome normalization -/

/-- The character class `[a-z0-9]` of the regular expression in
`value.toLowerCase().replace(/[^a-z0-9]/g, "")`. -/
def isAsciiAlnumLower (c : Char) : Bool :=
  ('a' ≤ c && c ≤ 'z') || ('0' ≤ c && c ≤ '9')

/-- Model of `const cleanStr = value.toLowerCase().replace(/[^a-z0-9]/g, "")`.
The replacement deletes every code unit outside `[a-z0-9]`; since both halves
of a surrogate pair lie outside that class, deleting per code unit and
deleting per code point agree. -/
def cleanStr (v : List Char) : List Char :=
  (jsToLower v).filter isAsciiAlnumLower

/-! ## Word count -/

/-- The character class of the regular expression `\s` (and of the set
`String.prototype.trim` strips): tab, line feed, vertical tab, form feed,
carriage return, space, no-break space, Ogham space mark, the `U+2000`–`U+200A`
spaces, line separator, paragraph separator, narrow no-break space, medium
mathematical space, ideographic space and the byte-order mark. -/
def isJsWhitespace (c : Char) : Bool :=
  c == '\t' || c == '\n' || c.toNat == 0xB || c.toNat == 0xC || c == '\r' ||
  c == ' ' || c.toNat == 0xA0 || c.toNat == 0x1680 ||
  (0x2000 ≤ c.toNat && c.toNat ≤ 0x200A) || c.toNat == 0x2028 ||
  c.toNat == 0x2029 || c.toNat == 0x202F || c.toNat == 0x205F ||
  c.toNat == 0x3000 || c.toNat == 0xFEFF

/-- JavaScript `value.trim()`: strip leading and trailing whitespace. -/
def jsTrim (v : List Char) : List Char :=
  ((v.dropWhile isJsWhitespace).reverse.dropWhile isJsWhitespace).reverse

/-- Worker for `splitWs`: `skipping` records whether the scanner is inside a
run of whitespace (the separator `\s+` is greedy, so a whole run is one
separator), `cur` holds the current piece reversed. -/
def splitWsGo (skipping : Bool) (cur : List Char) : List Char → List (List Char)
  | [] => if skipping then [[]] else [cur.reverse]
  | c :: cs =>
    if isJsWhitespace c then
      if skipping then splitWsGo true [] cs
      else cur.reverse :: splitWsGo true [] cs
    else splitWsGo false (c :: cur) cs

/-- JavaScript `str.split(/\s+/)`: the pieces between maximal whitespace runs,
with an empty leading piece when the string starts with whitespace, an empty
trailing piece when it ends with whitespace, and `[""]` for the empty
string. -/
def splitWs (v : List Char) : List (List Char) :=
  splitWsGo false [] v

/-- Model of `value.trim().split(/\s+/).filter((word) => word.length > 0).length`. -/
def jsWordCount (v : List Char) : Nat :=
  ((splitWs (jsTrim v)).filter (fun w => decide (0 < w.length))).length

/-! ## Unique characters and the character frequency map -/

/-- One step of building a JavaScript `Set` from a string: insertion-ordered,
an element already present is kept in place. -/
def setAdd (acc : List Char) (c : Char) : List Char :=
  if c ∈ acc then acc else acc ++ [c]

/-- Model of `new Set(value)` as its insertion-ordered element list; `.size` is its
length.  Iteration of a string is per code point. -/
def jsSetOf (v : List Char) : List Char :=
  v.foldl setAdd []

/-- One step of `character_frequency_map[char] = (character_frequency_map[char] || 0) + 1`:
bump the entry for `c`, appending a fresh entry (object keys keep insertion
order) when none exists. -/
def freqBump : List (Char × Nat) → Char → List (Char × Nat)
  | [], c => [(c, 1)]
  | (k, n) :: rest, c =>
    if k = c then (k, n + 1) :: rest else (k, n) :: freqBump rest c

/-- The `character_frequency_map` accumulation loop: `for (const char of value)`
iterates scalar values. -/
def charFrequencyMap (v : List Char) : List (Char × Nat) :=
  v.foldl freqBump []

/-! ## SHA-256 (`crypto.createHash("sha256").update(str).digest("hex")`)

Node's `Hash.update` with a string argument encodes it as UTF-8; `digest("hex")`
prints the 32 digest bytes as 64 lowercase hexadecimal digits.  The
compression function below follows FIPS 180-4 over `Nat`, reducing `% 2 ^ 32`
at every point where a 32-bit word overflows. -/

/-- UTF-8 encoding of one scalar value (1–4 bytes). -/
def utf8Bytes (c : Char) : List Nat :=
  let n := c.toNat
  if n < 0x80 then [n]
  else if n < 0x800 then [0xC0 + n / 0x40, 0x80 + n % 0x40]
  else if n < 0x10000 then
    [0xE0 + n / 0x1000, 0x80 + (n / 0x40) % 0x40, 0x80 + n % 0x40]
  else
    [0xF0 + n / 0x40000, 0x80 + (n / 0x1000) % 0x40,
     0x80 + (n / 0x40) % 0x40, 0x80 + n % 0x40]

/-- UTF-8 encoding of a string. -/
def utf8Encode (v : List Char) : List Nat :=
  (v.map utf8Bytes).flatten

/-- The `k` most significant-first base-256 digits of `n`. -/
def natToBytesBE : Nat → Nat → List Nat
  | 0, _ => []
  | k + 1, n => natToBytesBE k (n / 256) ++ [n % 256]

/-- SHA-256 message padding: append `0x80`, zero bytes up to 56 mod 64, and
the bit length as eight big-endian bytes. -/
def sha256Pad (msg : List Nat) : List Nat :=
  let L := msg.length
  let k := (64 + 56 - (L + 1) % 64) % 64
  msg ++ 0x80 :: List.replicate k 0 ++ natToBytesBE 8 (8 * L)

/-- Big-endian 32-bit words from a byte list (groups of four). -/
def bytesToWords : List Nat → List Nat
  | b0 :: b1 :: b2 :: b3 :: rest =>
    (((b0 * 256 + b1) * 256 + b2) * 256 + b3) :: bytesToWords rest
  | _ => []

/-- Right rotation of a 32-bit word by `n` places. -/
def rotr32 (n x : Nat) : Nat :=
  (x / 2 ^ n + x % 2 ^ n * 2 ^ (32 - n)) % 2 ^ 32

/-- Bitwise complement of a 32-bit word. -/
def bnot32 (x : Nat) : Nat :=
  0xFFFFFFFF ^^^ x % 2 ^ 32

/-- The 64 SHA-256 round constants (fractional cube roots of the first 64
primes). -/
def K256 : List Nat :=
  [1116352408, 1899447441, 3049323471, 3921009573, 961987163,
   1508970993, 2453635748, 2870763221, 3624381080, 310598401,
   607225278, 1426881987, 1925078388, 2162078206, 2614888103,
   3248222580, 3835390401, 4022224774, 264347078, 604807628,
   770255983, 1249150122, 1555081692, 1996064986, 2554220882,
   2821834349, 2952996808, 3210313671, 3336571891, 3584528711,
   113926993, 338241895, 666307205, 773529912, 1294757372,
   1396182291, 1695183700, 1986661051, 2177026350, 2456956037,
   2730485921, 2820302411, 3259730800, 3345764771, 3516065817,
   3600352804, 4094571909, 275423344, 430227734, 506948616,
   659060556, 883997877, 958139571, 1322822218, 1537002063,
   1747873779, 1955562222, 2024104815, 2227730452, 2361852424,
   2428436474, 2756734187, 3204031479, 3329325298]

/-- The initial SHA-256 hash value (fractional square roots of the first 8
primes). -/
def H256 : List Nat :=
  [1779033703, 3144134277, 1013904242,
   2773480762, 1359893119, 2600822924,
   528734635, 1541459225]

/-- The next word of the message schedule, computed from the last 16 words
accumulated so far. -/
def scheduleWord (w : List Nat) : Nat :=
  let n := w.length
  let w15 := w.getD (n - 15) 0
  let w2 := w.getD (n - 2) 0
  let s0 := rotr32 7 w15 ^^^ rotr32 18 w15 ^^^ w15 / 2 ^ 3
  let s1 := rotr32 17 w2 ^^^ rotr32 19 w2 ^^^ w2 / 2 ^ 10
  (w.getD (n - 16) 0 + s0 + w.getD (n - 7) 0 + s1) % 2 ^ 32

/-- Extend a 16-word block by `fuel` further schedule words. -/
def extendSchedule : Nat → List Nat → List Nat
  | 0, w => w
  | fuel + 1, w => extendSchedule fuel (w ++ [scheduleWord w])

/-- One SHA-256 round on the working state `[a, b, c, d, e, f, g, h]` with
round constant `k` and schedule word `w`. -/
def sha256Round (st : List Nat) (k w : Nat) : List Nat :=
  match st with
  | [a, b, c, d, e, f, g, h] =>
    let S1 := rotr32 6 e ^^^ rotr32 11 e ^^^ rotr32 25 e
    let ch := e &&& f ^^^ bnot32 e &&& g
    let temp1 := (h + S1 + ch + k + w) % 2 ^ 32
    let S0 := rotr32 2 a ^^^ rotr32 13 a ^^^ rotr32 22 a
    let maj := a &&& b ^^^ a &&& c ^^^ b &&& c
    let temp2 := (S0 + maj) % 2 ^ 32
    [(temp1 + temp2) % 2 ^ 32, a, b, c, (d + temp1) % 2 ^ 32, e, f, g]
  | st => st

/-- Compress one 16-word block into the running hash. -/
def sha256Compress (h : List Nat) (block : List Nat) : List Nat :=
  let schedule := extendSchedule 48 block
  let final := (K256.zip schedule).foldl (fun st p => sha256Round st p.1 p.2) h
  match h, final with
  | [h0, h1, h2, h3, h4, h5, h6, h7], [a, b, c, d, e, f, g, hh] =>
    [(h0 + a) % 2 ^ 32, (h1 + b) % 2 ^ 32, (h2 + c) % 2 ^ 32,
     (h3 + d) % 2 ^ 32, (h4 + e) % 2 ^ 32, (h5 + f) % 2 ^ 32,
     (h6 + g) % 2 ^ 32, (h7 + hh) % 2 ^ 32]
  | h, _ => h

/-- Fold the compression function over the 16-word blocks of the padded
message (the padded word list's length is a multiple of 16). -/
def sha256Blocks (h : List Nat) : List Nat → List Nat
  | w0 :: w1 :: w2 :: w3 :: w4 :: w5 :: w6 :: w7 ::
    w8 :: w9 :: w10 :: w11 :: w12 :: w13 :: w14 :: w15 :: rest =>
    sha256Blocks
      (sha256Compress h [w0, w1, w2, w3, w4, w5, w6, w7,
                         w8, w9, w10, w11, w12, w13, w14, w15]) rest
  | _ => h

/-- The eight 32-bit words of the SHA-256 digest of a string. -/
def sha256Words (v : List Char) : List Nat :=
  sha256Blocks H256 (bytesToWords (sha256Pad (utf8Encode v)))

/-- The digest words combined into one 256-bit number (big-endian). -/
def combineWords (ws : List Nat) : Nat :=
  ws.foldl (fun acc w => acc * 2 ^ 32 + w % 2 ^ 32) 0

/-- The SHA-256 digest of a string as a number below `2 ^ 256`. -/
def sha256Nat (v : List Char) : Nat :=
  combineWords (sha256Words v)

/-- Lowercase hexadecimal digit. -/
def hexDigit (n : Nat) : Char :=
  if n < 10 then Char.ofNat (48 + n) else Char.ofNat (87 + n)

/-- The `k` most significant-first hexadecimal digits of `n`. -/
def natToHexBE : Nat → Nat → List Char
  | 0, _ => []
  | k + 1, n => natToHexBE k (n / 16) ++ [hexDigit (n % 16)]

/-- Model of `computeHash` of `helper.js`: the hex-encoded SHA-256 digest.  Encoding
the 32 digest bytes in order equals printing the 256-bit big-endian value as
64 hexadecimal digits. -/
def computeHash (v : List Char) : List Char :=
  natToHexBE 64 (sha256Nat v)

/-! ## The analyzer (`analyzeString`) -/

/-- The property record `analyzeString` returns. -/
structure Properties where
  length : Nat
  is_palindrome : Bool
  unique_characters : Nat
  word_count : Nat
  sha256_hash : List Char
  character_frequency_map : List (Char × Nat)
deriving DecidableEq, Repr

/-- Model of `analyzeString` of `helper.js`.  `cleanStr.split("").reverse().join("")`
reverses code units; `cleanStr` holds only ASCII characters, so it equals the
code-point reversal. -/
def analyzeString (value : List Char) : Properties :=
  { length := jsLength value
    is_palindrome := cleanStr value == (cleanStr value).reverse
    unique_characters := (jsSetOf value).length
    word_count := jsWordCount value
    sha256_hash := computeHash value
    character_frequency_map := charFrequencyMap value }

/-! ## Filter criteria and the filter evaluator (`applyFilters`) -/

/-- Model of `FilterCriteria`: each field absent (`none`) imposes no constraint.
The length bounds are `Int` because `parseNaturalLanguage` can produce
`max_length = -1` (from "shorter than 0"). -/
structure Filters where
  is_palindrome : Option Bool
  min_length : Option Int
  max_length : Option Int
  word_count : Option Nat
  contains_character : Option Char
deriving DecidableEq, Repr

/-- The criteria object with no field present. -/
def Filters.empty : Filters :=
  ⟨none, none, none, none, none⟩

/-- A stored record as `applyFilters` destructures it: its raw `value` and
its computed `properties` (the `id`/`created_at` fields play no part). -/
structure StringRecord where
  value : List Char
  properties : Properties
deriving DecidableEq, Repr

/-- Model of `if (properties.is_palindrome !== filters.is_palindrome) return false`. -/
def palFail (f : Filters) (item : StringRecord) : Bool :=
  match f.is_palindrome with
  | none => false
  | some b => item.properties.is_palindrome != b

/-- Model of `if (properties.length < filters.min_length) return false`. -/
def minLenFail (f : Filters) (item : StringRecord) : Bool :=
  match f.min_length with
  | none => false
  | some n => decide ((item.properties.length : Int) < n)

/-- Model of `if (properties.length > filters.max_length) return false`. -/
def maxLenFail (f : Filters) (item : StringRecord) : Bool :=
  match f.max_length with
  | none => false
  | some n => decide (n < (item.properties.length : Int))

/-- Model of `if (properties.word_count !== filters.word_count) return false`. -/
def wordCountFail (f : Filters) (item : StringRecord) : Bool :=
  match f.word_count with
  | none => false
  | some n => item.properties.word_count != n

/-- JavaScript `haystack.includes(needle)`: substring containment, scanning
start positions left to right. -/
def includesSub : (hay needle : List Char) → Bool
  | [], needle => needle.isEmpty
  | hay@(_ :: t), needle => needle.isPrefixOf hay || includesSub t needle

/-- Model of `if (!value.toLowerCase().includes(filters.contains_character.toLowerCase())) return false`. -/
def containsFail (f : Filters) (item : StringRecord) : Bool :=
  match f.contains_character with
  | none => false
  | some c => !includesSub (jsToLower item.value) (jsToLower [c])

/-- The predicate of the `strings.filter` callback in `applyFilters`: the
early `return false` chain, as the conjunction of its five checks. -/
def passes (f : Filters) (item : StringRecord) : Bool :=
  if palFail f item then false
  else if minLenFail f item then false
  else if maxLenFail f item then false
  else if wordCountFail f item then false
  else if containsFail f item then false
  else true

/-- Model of `applyFilters` of `helper.js`. -/
def applyFilters (strings : List StringRecord) (f : Filters) : List StringRecord :=
  strings.filter (fun item => passes f item)

/-! ## The natural-language query interpreter (`parseNaturalLanguage`) -/

/-- ASCII decimal digit. -/
def isDigitChar (c : Char) : Bool :=
  '0' ≤ c && c ≤ '9'

/-- Model of `parseInt` on a non-empty run of decimal digits. -/
def digitsToNat (ds : List Char) : Nat :=
  ds.foldl (fun n c => n * 10 + (c.toNat - 48)) 0

/-- First match of the regular expression `PAT(\d+)` (for a literal `PAT`):
scan start positions left to right; at a position the literal must be
followed by at least one digit, and `\d+` greedily captures the whole digit
run. -/
def scanNumAfter (pat : List Char) : List Char → Option Nat
  | [] => if pat = [] then some 0 else none
  | l@(_ :: cs) =>
    if pat.isPrefixOf l then
      let ds := (l.drop pat.length).takeWhile isDigitChar
      if ds.isEmpty then scanNumAfter pat cs else some (digitsToNat ds)
    else scanNumAfter pat cs

/-- The head of the list when it is a lowercase ASCII letter: the `([a-z])`
capture group. -/
def letterHead : List Char → Option Char
  | [] => none
  | c :: _ => if 'a' ≤ c ∧ c ≤ 'z' then some c else none

/-- The tail `(?:the letter |the character )?([a-z])` of the containment
regular expression, with backtracking: when the optional phrase matches but
no letter follows it, the empty alternative is retried, and `[a-z]` then
captures the `t` of `the`. -/
def containTail (r : List Char) : Option Char :=
  if ("the letter ".toList).isPrefixOf r then
    match letterHead (r.drop 11) with
    | some c => some c
    | none => letterHead r
  else if ("the character ".toList).isPrefixOf r then
    match letterHead (r.drop 14) with
    | some c => some c
    | none => letterHead r
  else letterHead r

/-- A match attempt of `contain(?:s|ing)? (?:the letter |the character )?([a-z])`
anchored at the head of `l`.  After the literal `contain`, the alternatives
`s`, `ing` and the empty one are tried in order; each must be followed by the
literal space, and their first characters (`s`, `i`, the space) are mutually
exclusive, so the if-chain realizes the regex backtracking order. -/
def containMatchAt (l : List Char) : Option Char :=
  if ("contain".toList).isPrefixOf l then
    let r := l.drop 7
    if ("s ".toList).isPrefixOf r then containTail (r.drop 2)
    else if ("ing ".toList).isPrefixOf r then containTail (r.drop 4)
    else if (" ".toList).isPrefixOf r then containTail (r.drop 1)
    else none
  else none

/-- First match of the containment regular expression: attempt every start
position left to right. -/
def scanContains : List Char → Option Char
  | [] => none
  | l@(_ :: cs) =>
    match containMatchAt l with
    | some c => some c
    | none => scanContains cs

/-- Model of `parseNaturalLanguage` of `helper.js`: the pattern rules applied to the
lowercased query, each writing its field of the criteria.  The two vowel
rules run after the containment rule and overwrite its field. -/
def parseNaturalLanguage (query : List Char) : Filters :=
  let lq := jsToLower query
  { is_palindrome :=
      if includesSub lq ("palindrome".toList) || includesSub lq ("palindromic".toList)
      then some true else none
    min_length :=
      (scanNumAfter ("longer than ".toList) lq).map (fun n => (n : Int) + 1)
    max_length :=
      (scanNumAfter ("shorter than ".toList) lq).map (fun n => (n : Int) - 1)
    word_count :=
      if includesSub lq ("single word".toList) then some 1
      else if includesSub lq ("two word".toList) || includesSub lq ("2 word".toList)
      then some 2
      else if includesSub lq ("three word".toList) || includesSub lq ("3 word".toList)
      then some 3
      else none
    contains_character :=
      if includesSub lq ("first vowel".toList) then some 'a'
      else if includesSub lq ("second vowel".toList) then some 'e'
      else scanContains lq }

/-! ## Spec-side characterizations

Definitions written from the specification's words, to be compared with the
embedded code above. -/

/-- The spec's palindrome normalization: "the content, after lowercasing and
removing every character that is not an ASCII letter or digit". -/
def normalizeSpec (v : List Char) : List Char :=
  (jsToLower v).filter isAsciiAlnumLower

/-- Worker for `tokenCount`: `inWord` records whether the previous character
belonged to a token, so exactly the first character of each maximal
non-whitespace run counts. -/
def tokenCountAux : Bool → List Char → Nat
  | _, [] => 0
  | inWord, c :: cs =>
    if isJsWhitespace c then tokenCountAux false cs
    else (if inWord then 0 else 1) + tokenCountAux true cs

/-- The spec's word count: "count of maximal whitespace-delimited non-empty
tokens"; consecutive whitespace collapses to a single delimiter. -/
def tokenCount (v : List Char) : Nat :=
  tokenCountAux false v

/-- The sum of the values of a character-frequency mapping. -/
def freqValuesSum (m : List (Char × Nat)) : Nat :=
  (m.map Prod.snd).sum

/-- Model of `map[c] || 0`: the count stored for `c`, zero when no entry exists. -/
def freqLookup : List (Char × Nat) → Char → Nat
  | [], _ => 0
  | (k, n) :: rest, c => if k = c then n else freqLookup rest c

/-- The spec's per-criterion satisfaction: a record passes a criteria set iff
it satisfies every present criterion (`is_palindrome` and `word_count` by
exact equality, the length bounds inclusively, `contains_character` by
case-insensitive containment in the raw content); an absent criterion
constrains nothing. -/
def satisfiesSpec (f : Filters) (item : StringRecord) : Prop :=
  (∀ b ∈ f.is_palindrome, item.properties.is_palindrome = b) ∧
  (∀ n ∈ f.min_length, n ≤ (item.properties.length : Int)) ∧
  (∀ n ∈ f.max_length, (item.properties.length : Int) ≤ n) ∧
  (∀ n ∈ f.word_count, item.properties.word_count = n) ∧
  (∀ c ∈ f.contains_character,
    includesSub (jsToLower item.value) (jsToLower [c]) = true)

/-- The criteria set whose only present criterion is `contains_character`. -/
def Filters.onlyContains (c : Char) : Filters :=
  ⟨none, none, none, none, some c⟩

/-- Predicate for "zero of the defined patterns match the lowercased phrase": none of the
substring rules, number rules, the containment regular expression or the
vowel rules fires. -/
def noPatternMatches (query : List Char) : Prop :=
  includesSub (jsToLower query) ("palindrome".toList) = false ∧
  includesSub (jsToLower query) ("palindromic".toList) = false ∧
  includesSub (jsToLower query) ("single word".toList) = false ∧
  includesSub (jsToLower query) ("two word".toList) = false ∧
  includesSub (jsToLower query) ("2 word".toList) = false ∧
  includesSub (jsToLower query) ("three word".toList) = false ∧
  includesSub (jsToLower query) ("3 word".toList) = false ∧
  scanNumAfter ("longer than ".toList) (jsToLower query) = none ∧
  scanNumAfter ("shorter than ".toList) (jsToLower query) = none ∧
  scanContains (jsToLower query) = none ∧
  includesSub (jsToLower query) ("first vowel".toList) = false ∧
  includesSub (jsToLower query) ("second vowel".toList) = false

/-! ## Helper lemmas -/

lemma splitWsGo_filter_length (l : List Char) :
    (((splitWsGo true [] l).filter fun w => decide (0 < w.length)).length
       = tokenCountAux false l) ∧
    ∀ cur : List Char, cur ≠ [] →
      ((splitWsGo false cur l).filter fun w => decide (0 < w.length)).length
        = tokenCountAux true l + 1 := by
  induction l with
  | nil =>
    refine ⟨by decide, fun cur hcur => ?_⟩
    have hpos : 0 < cur.length := List.length_pos.mpr hcur
    simp [splitWsGo, tokenCountAux, List.filter_cons, hpos]
  | cons c cs ih =>
    by_cases hc : isJsWhitespace c = true
    · refine ⟨?_, fun cur hcur => ?_⟩
      · simp [splitWsGo, tokenCountAux, hc, ih.1]
      · have hpos : 0 < cur.length := List.length_pos.mpr hcur
        simp [splitWsGo, tokenCountAux, List.filter_cons, hc, hpos, ih.1]
    · have hc' : isJsWhitespace c = false := by
        simpa using hc
      refine ⟨?_, fun cur hcur => ?_⟩
      · simp [splitWsGo, tokenCountAux, hc', ih.2 [c] (by simp)]
        omega
      · simp [splitWsGo, tokenCountAux, hc', ih.2 (c :: cur) (by simp)]

lemma splitWs_filter_length (l : List Char) :
    ((splitWs l).filter fun w => decide (0 < w.length)).length = tokenCount l := by
  cases l with
  | nil => decide
  | cons c cs =>
    by_cases hc : isJsWhitespace c = true
    · simp [splitWs, splitWsGo, tokenCount, tokenCountAux, hc,
        (splitWsGo_filter_length cs).1]
    · have hc' : isJsWhitespace c = false := by simpa using hc
      simp [splitWs, splitWsGo, tokenCount, tokenCountAux, hc',
        (splitWsGo_filter_length cs).2 [c] (by simp)]
      omega

/-! ## Claim theorems -/

/-- C2: `analyze(s).is_palindrome` is true exactly when the normalized copy
of `s` — lowercased, with every character not in `[a-z0-9]` removed — equals
its own reversal; an empty normalized copy yields `true`, `"racecar"` and
`"A man a plan a canal Panama"` are palindromic, `"hello"` is not, and the
empty string is. -/
theorem analyze_is_palindrome_spec :
    (∀ v : List Char,
      (analyzeString v).is_palindrome = true ↔
        normalizeSpec v = (normalizeSpec v).reverse) ∧
    (∀ v : List Char, normalizeSpec v = [] →
      (analyzeString v).is_palindrome = true) ∧
    (analyzeString "racecar".toList).is_palindrome = true ∧
    (analyzeString "A man a plan a canal Panama".toList).is_palindrome = true ∧
    (analyzeString "hello".toList).is_palindrome = false ∧
    (analyzeString "".toList).is_palindrome = true := by
  refine ⟨fun v => ?_, fun v h => ?_, by decide, by decide, by decide, by decide⟩
  · simp [analyzeString, normalizeSpec, cleanStr]
  · have hc : cleanStr v = [] := h
    simp [analyzeString, hc]

/-- C6: `analyze(s).word_count` is the number of maximal
whitespace-delimited non-empty tokens of `s` after trimming, consecutive
whitespace acting as one delimiter; `"  hello   world  "` has two words and
`""` has zero. -/
theorem analyze_word_count_spec :
    (∀ v : List Char, (analyzeString v).word_count = tokenCount (jsTrim v)) ∧
    (analyzeString "  hello   world  ".toList).word_count = 2 ∧
    (analyzeString "".toList).word_count = 0 := by
  refine ⟨fun v => ?_, by decide, by decide⟩
  simpa [analyzeString, jsWordCount] using splitWs_filter_length (jsTrim v)

lemma freqBump_sum (m : List (Char × Nat)) (c : Char) :
    freqValuesSum (freqBump m c) = freqValuesSum m + 1 := by
  induction m with
  | nil => rfl
  | cons p rest ih =>
    obtain ⟨k, n⟩ := p
    by_cases hk : k = c
    · simp [freqBump, hk, freqValuesSum]
      omega
    · simp [freqBump, hk, freqValuesSum] at ih ⊢
      omega

lemma foldl_freqBump_sum (v : List Char) :
    ∀ m : List (Char × Nat),
      freqValuesSum (v.foldl freqBump m) = freqValuesSum m + v.length := by
  induction v with
  | nil => intro m; simp
  | cons c cs ih =>
    intro m
    simp only [List.foldl_cons, List.length_cons, ih (freqBump m c), freqBump_sum]
    omega

lemma freqBump_lookup (m : List (Char × Nat)) (c c' : Char) :
    freqLookup (freqBump m c) c'
      = freqLookup m c' + (if c = c' then 1 else 0) := by
  induction m with
  | nil =>
    by_cases h : c = c' <;> simp [freqBump, freqLookup, h]
  | cons p rest ih =>
    obtain ⟨k, n⟩ := p
    by_cases hk : k = c
    · subst hk
      by_cases h : k = c' <;> simp [freqBump, freqLookup, h]
    · by_cases h : k = c'
      · have h1 : ¬c' = c := fun he => hk (h.trans he)
        have h2 : ¬c = c' := fun he => h1 he.symm
        simp [freqBump, freqLookup, h1, h2, h]
      · simp [freqBump, freqLookup, hk, h, ih]

lemma foldl_freqBump_lookup (v : List Char) :
    ∀ (m : List (Char × Nat)) (c : Char),
      freqLookup (v.foldl freqBump m) c = freqLookup m c + v.count c := by
  induction v with
  | nil => intro m c; simp
  | cons a as ih =>
    intro m c
    simp only [List.foldl_cons, List.count_cons, ih (freqBump m a) c,
      freqBump_lookup]
    by_cases h : a = c
    · simp [h]
      omega
    · simp [h]

lemma jsLength_of_bmp : ∀ v : List Char,
    (∀ c ∈ v, c.toNat < 0x10000) → jsLength v = v.length := by
  intro v
  induction v with
  | nil => intro _; rfl
  | cons c cs ih =>
    intro h
    have hc : c.toNat < 0x10000 := h c (by simp)
    have ih' := ih fun x hx => h x (by simp [hx])
    simp [jsLength, utf16Units, hc] at ih' ⊢
    omega

lemma freqBump_keys (m : List (Char × Nat)) (c : Char) :
    (freqBump m c).map Prod.fst = setAdd (m.map Prod.fst) c := by
  induction m with
  | nil => rfl
  | cons p rest ih =>
    obtain ⟨k, n⟩ := p
    by_cases hk : k = c
    · simp [freqBump, setAdd, hk]
    · by_cases hm : c ∈ rest.map Prod.fst
      · simp [freqBump, setAdd, hk, hm, Ne.symm hk, ih]
      · simp [freqBump, setAdd, hk, hm, Ne.symm hk, ih]

lemma foldl_freqBump_keys (v : List Char) :
    ∀ m : List (Char × Nat),
      (v.foldl freqBump m).map Prod.fst = v.foldl setAdd (m.map Prod.fst) := by
  induction v with
  | nil => intro m; rfl
  | cons c cs ih =>
    intro m
    simp only [List.foldl_cons, ih (freqBump m c), freqBump_keys]

lemma setAdd_nodup (acc : List Char) (c : Char) (h : acc.Nodup) :
    (setAdd acc c).Nodup := by
  by_cases hm : c ∈ acc
  · simpa [setAdd, hm] using h
  · simp [setAdd, hm, List.nodup_append, h]

lemma foldl_setAdd_nodup (v : List Char) :
    ∀ acc : List Char, acc.Nodup → (v.foldl setAdd acc).Nodup := by
  induction v with
  | nil => intro acc h; exact h
  | cons c cs ih =>
    intro acc h
    exact ih (setAdd acc c) (setAdd_nodup acc c h)

/-- C1, counterexample: for the single supplementary-plane character
`U+10000`, the frequency values sum to 1 (one code point) while
`analyze(s).length` is 2 (two UTF-16 code units), so the claimed equality
fails on this input. -/
theorem freq_sum_counterexample :
    ¬ freqValuesSum (analyzeString [Char.ofNat 0x10000]).character_frequency_map
        = (analyzeString [Char.ofNat 0x10000]).length := by
  decide

/-- C1, amended: the values of `analyze(s).character_frequency_map` sum to
the number of code points of `s` (the map counts every character of `s` with
no exclusions: the entry of each character is its exact occurrence count),
and this sum equals `analyze(s).length` exactly when `s` has no
supplementary-plane (`≥ U+10000`) characters — `length` counts UTF-16 code
units, the map counts code points. -/
theorem freq_sum_amended :
    (∀ v : List Char,
      freqValuesSum (analyzeString v).character_frequency_map = v.length) ∧
    (∀ (v : List Char) (c : Char),
      freqLookup (analyzeString v).character_frequency_map c = v.count c) ∧
    (∀ v : List Char, (∀ c ∈ v, c.toNat < 0x10000) →
      freqValuesSum (analyzeString v).character_frequency_map
        = (analyzeString v).length) := by
  refine ⟨fun v => ?_, fun v c => ?_, fun v h => ?_⟩
  · simpa [analyzeString, charFrequencyMap, freqValuesSum]
      using foldl_freqBump_sum v []
  · simpa [analyzeString, charFrequencyMap, freqLookup]
      using foldl_freqBump_lookup v [] c
  · have h1 : freqValuesSum (charFrequencyMap v) = v.length := by
      simpa [charFrequencyMap, freqValuesSum] using foldl_freqBump_sum v []
    simpa [analyzeString, jsLength_of_bmp v h] using h1

/-- C10: `analyze(s).unique_characters` equals the number of entries of
`analyze(s).character_frequency_map` (whose keys are distinct, so the entry
count is the number of distinct keys): both traverse `s` per code point.
They agree even on `U+10000`, where `length` (UTF-16 units) differs from the
code-point count. -/
theorem unique_characters_spec :
    (∀ v : List Char,
      (analyzeString v).unique_characters
        = (analyzeString v).character_frequency_map.length) ∧
    (∀ v : List Char,
      ((analyzeString v).character_frequency_map.map Prod.fst).Nodup) ∧
    (analyzeString [Char.ofNat 0x10000]).unique_characters = 1 ∧
    (analyzeString [Char.ofNat 0x10000]).length = 2 := by
  refine ⟨fun v => ?_, fun v => ?_, by decide, by decide⟩
  · have hkeys : (charFrequencyMap v).map Prod.fst = jsSetOf v := by
      simpa [charFrequencyMap, jsSetOf] using foldl_freqBump_keys v []
    have hlen : ((charFrequencyMap v).map Prod.fst).length
        = (charFrequencyMap v).length := List.length_map _ _
    simp [analyzeString, ← hlen, hkeys]
  · have hkeys : (charFrequencyMap v).map Prod.fst = jsSetOf v := by
      simpa [charFrequencyMap, jsSetOf] using foldl_freqBump_keys v []
    simp only [analyzeString, hkeys]
    exact foldl_setAdd_nodup v [] List.nodup_nil

lemma passes_eq_true_iff (f : Filters) (r : StringRecord) :
    passes f r = true ↔
      palFail f r = false ∧ minLenFail f r = false ∧ maxLenFail f r = false ∧
      wordCountFail f r = false ∧ containsFail f r = false := by
  unfold passes
  cases hp : palFail f r <;> cases hm : minLenFail f r <;>
    cases hx : maxLenFail f r <;> cases hw : wordCountFail f r <;>
    cases hc : containsFail f r <;> simp

lemma palFail_false_iff (f : Filters) (r : StringRecord) :
    palFail f r = false ↔
      ∀ b ∈ f.is_palindrome, r.properties.is_palindrome = b := by
  cases h : f.is_palindrome <;> simp [palFail, h]

lemma minLenFail_false_iff (f : Filters) (r : StringRecord) :
    minLenFail f r = false ↔
      ∀ n ∈ f.min_length, n ≤ (r.properties.length : Int) := by
  cases h : f.min_length <;> simp [minLenFail, h]

lemma maxLenFail_false_iff (f : Filters) (r : StringRecord) :
    maxLenFail f r = false ↔
      ∀ n ∈ f.max_length, (r.properties.length : Int) ≤ n := by
  cases h : f.max_length <;> simp [maxLenFail, h]

lemma wordCountFail_false_iff (f : Filters) (r : StringRecord) :
    wordCountFail f r = false ↔
      ∀ n ∈ f.word_count, r.properties.word_count = n := by
  cases h : f.word_count <;> simp [wordCountFail, h]

lemma containsFail_false_iff (f : Filters) (r : StringRecord) :
    containsFail f r = false ↔
      ∀ c ∈ f.contains_character,
        includesSub (jsToLower r.value) (jsToLower [c]) = true := by
  cases h : f.contains_character <;> simp [containsFail, h]

lemma passes_iff_satisfiesSpec (f : Filters) (r : StringRecord) :
    passes f r = true ↔ satisfiesSpec f r := by
  rw [passes_eq_true_iff, satisfiesSpec, palFail_false_iff, minLenFail_false_iff,
    maxLenFail_false_iff, wordCountFail_false_iff, containsFail_false_iff]

/-- C3: `applyFilters` returns exactly the order-preserving subsequence of
its input whose members satisfy every present criterion (`is_palindrome` and
`word_count` by equality, the length bounds inclusively); absent criteria
constrain nothing, and with no criterion present the input comes back
unchanged. -/
theorem applyFilters_spec :
    (∀ (records : List StringRecord) (f : Filters),
      (applyFilters records f).Sublist records) ∧
    (∀ (records : List StringRecord) (f : Filters) (r : StringRecord),
      r ∈ applyFilters records f ↔ r ∈ records ∧ satisfiesSpec f r) ∧
    (∀ (f : Filters) (r : StringRecord),
      passes f r = true ↔ satisfiesSpec f r) ∧
    (∀ records : List StringRecord, applyFilters records Filters.empty = records) := by
  refine ⟨fun records f => List.filter_sublist records,
    fun records f r => ?_, passes_iff_satisfiesSpec,
    fun records => ?_⟩
  · rw [applyFilters, List.mem_filter, passes_iff_satisfiesSpec]
  · exact List.filter_eq_self.mpr fun r _ => rfl

/-- C5: a record meets a present `contains_character` criterion exactly when
its raw content, lowercased, contains the lowercased character; the check
reads only the record's `value`, never its (case-sensitive) frequency
property. -/
theorem contains_criterion_spec :
    (∀ (r : StringRecord) (c : Char),
      passes (Filters.onlyContains c) r = true ↔
        includesSub (jsToLower r.value) (jsToLower [c]) = true) ∧
    (∀ (v : List Char) (p p' : Properties) (c : Char),
      passes (Filters.onlyContains c) ⟨v, p⟩
        = passes (Filters.onlyContains c) ⟨v, p'⟩) ∧
    (∀ (f : Filters) (r : StringRecord) (c : Char),
      f.contains_character = some c → passes f r = true →
        includesSub (jsToLower r.value) (jsToLower [c]) = true) := by
  refine ⟨fun r c => ?_, fun v p p' c => rfl, fun f r c hc h => ?_⟩
  · rw [passes_iff_satisfiesSpec]
    simp [satisfiesSpec, Filters.onlyContains]
  · have := ((passes_eq_true_iff f r).mp h).2.2.2.2
    rw [containsFail_false_iff] at this
    exact this c hc

/-- C4: the "first vowel"/"second vowel" rules run after the
letter-containment rule and overwrite `contains_character` whenever they
fire (last writer wins; no merge): a query containing "first vowel" always
ends with `contains_character = 'a'`, whatever the containment regular
expression matched.  On "palindromic strings that contain the first vowel"
the containment rule alone would capture `'t'` (of "the"), yet the result is
exactly `{is_palindrome: true, contains_character: 'a'}`. -/
theorem vowel_overwrite_spec :
    (∀ q : List Char,
      includesSub (jsToLower q) ("first vowel".toList) = true →
        (parseNaturalLanguage q).contains_character = some 'a') ∧
    (∀ q : List Char,
      includesSub (jsToLower q) ("first vowel".toList) = false →
      includesSub (jsToLower q) ("second vowel".toList) = true →
        (parseNaturalLanguage q).contains_character = some 'e') ∧
    parseNaturalLanguage ("palindromic strings that contain the first vowel".toList)
      = { is_palindrome := some true, min_length := none, max_length := none,
          word_count := none, contains_character := some 'a' } ∧
    scanContains
        (jsToLower ("palindromic strings that contain the first vowel".toList))
      = some 't' := by
  refine ⟨fun q h1 => ?_, fun q h1 h2 => ?_, by decide, by decide⟩
  · simp at h1
    simp [parseNaturalLanguage, h1]
  · simp at h1 h2
    simp [parseNaturalLanguage, h1, h2]

/-- C7: the word-count phrases are tried in the fixed order "single word",
then "two word"/"2 word", then "three word"/"3 word", and only the first
match applies (the later checks are else-chained); on
"all single word palindromic strings" the result is exactly
`{word_count: 1, is_palindrome: true}`. -/
theorem word_count_order_spec :
    (∀ q : List Char,
      includesSub (jsToLower q) ("single word".toList) = true →
        (parseNaturalLanguage q).word_count = some 1) ∧
    (∀ q : List Char,
      includesSub (jsToLower q) ("single word".toList) = false →
      (includesSub (jsToLower q) ("two word".toList) = true ∨
       includesSub (jsToLower q) ("2 word".toList) = true) →
        (parseNaturalLanguage q).word_count = some 2) ∧
    (∀ q : List Char,
      includesSub (jsToLower q) ("single word".toList) = false →
      includesSub (jsToLower q) ("two word".toList) = false →
      includesSub (jsToLower q) ("2 word".toList) = false →
      (includesSub (jsToLower q) ("three word".toList) = true ∨
       includesSub (jsToLower q) ("3 word".toList) = true) →
        (parseNaturalLanguage q).word_count = some 3) ∧
    parseNaturalLanguage ("all single word palindromic strings".toList)
      = { is_palindrome := some true, min_length := none, max_length := none,
          word_count := some 1, contains_character := none } := by
  refine ⟨fun q h1 => ?_, fun q h1 h2 => ?_, fun q h1 h2 h3 h4 => ?_, by decide⟩
  · simp at h1
    simp [parseNaturalLanguage, h1]
  · simp at h1
    rcases h2 with h2 | h2 <;> simp at h2 <;> simp [parseNaturalLanguage, h1, h2]
  · simp at h1 h2 h3
    rcases h4 with h4 | h4 <;> simp at h4 <;>
      simp [parseNaturalLanguage, h1, h2, h3, h4]

/-- C8: the interpreter is a total function (in this embedding,
`parseNaturalLanguage` is defined for every phrase and raises nothing);
when zero of its patterns match the lowercased phrase it returns the empty
criteria set — its only error-shaped outcome — and in particular
"bananas are yellow" yields the empty criteria set. -/
theorem interpret_no_match_spec :
    parseNaturalLanguage ("bananas are yellow".toList) = Filters.empty ∧
    (∀ q : List Char, noPatternMatches q →
      parseNaturalLanguage q = Filters.empty) := by
  refine ⟨by decide, fun q h => ?_⟩
  obtain ⟨h1, h2, h3, h4, h5, h6, h7, h8, h9, h10, h11, h12⟩ := h
  simp at h1 h2 h3 h4 h5 h6 h7 h8 h9 h10 h11 h12
  simp [parseNaturalLanguage, Filters.empty,
    h1, h2, h3, h4, h5, h6, h7, h8, h9, h10, h11, h12]

lemma natToHexBE_mod (k : Nat) : ∀ n : Nat,
    natToHexBE k n = natToHexBE k (n % 16 ^ k) := by
  induction k with
  | zero => intro n; rfl
  | succ k ih =>
    intro n
    have hdiv : n % 16 ^ (k + 1) / 16 = n / 16 % 16 ^ k := by
      rw [pow_succ']
      exact Nat.mod_mul_right_div_self n 16 (16 ^ k)
    have hmod : n % 16 ^ (k + 1) % 16 = n % 16 :=
      Nat.mod_mod_of_dvd n (dvd_pow_self 16 (Nat.succ_ne_zero k))
    simp only [natToHexBE, hdiv, hmod, ih (n / 16)]

/-- Any function into 64 hexadecimal digits takes equal values on two
distinct strings: the digest determines only `sha256Nat _ % 2 ^ 256`, a
finite range, while there are infinitely many strings.  (The collision is
non-constructive: none is known for SHA-256.) -/
lemma computeHash_collision :
    ∃ s1 s2 : List Char, s1 ≠ s2 ∧ computeHash s1 = computeHash s2 := by
  have h16 : (16 : Nat) ^ 64 = 2 ^ 256 := by norm_num
  have hpos : 0 < 2 ^ 256 := pow_pos (by norm_num) 256
  obtain ⟨s1, s2, hne, hf⟩ :=
    Finite.exists_ne_map_eq_of_infinite
      (fun v : List Char => (⟨sha256Nat v % 2 ^ 256, Nat.mod_lt _ hpos⟩ : Fin (2 ^ 256)))
  refine ⟨s1, s2, hne, ?_⟩
  have hmod : sha256Nat s1 % 2 ^ 256 = sha256Nat s2 % 2 ^ 256 :=
    congrArg Fin.val hf
  calc computeHash s1 = natToHexBE 64 (sha256Nat s1) := rfl
    _ = natToHexBE 64 (sha256Nat s1 % 16 ^ 64) := natToHexBE_mod 64 _
    _ = natToHexBE 64 (sha256Nat s2 % 16 ^ 64) := by rw [h16, hmod]
    _ = computeHash s2 := (natToHexBE_mod 64 _).symm

/-- C9, counterexample: fingerprint equality cannot imply string equality —
`computeHash` maps infinitely many strings into the 2^256 possible 64-digit
hex digests, so two distinct strings share a fingerprint (pigeonhole; the
argument depends only on the digest being 256 bits, not on SHA-256's
internals, and exhibits no concrete collision). -/
theorem fingerprint_injectivity_counterexample :
    ¬ ∀ s1 s2 : List Char, computeHash s1 = computeHash s2 → s1 = s2 := by
  intro h
  obtain ⟨s1, s2, hne, heq⟩ := computeHash_collision
  exact hne (h s1 s2 heq)

/-- C9, amended: the fingerprint is a deterministic function of the content
(`analyze(s).sha256_hash` is `computeHash s`, so equal inputs give equal
fingerprints), but equal fingerprints do not imply equal strings: collisions
exist by counting, although none is explicitly known for SHA-256. -/
theorem fingerprint_amended :
    (∀ s1 s2 : List Char, s1 = s2 →
      (analyzeString s1).sha256_hash = (analyzeString s2).sha256_hash) ∧
    (∀ s : List Char, (analyzeString s).sha256_hash = computeHash s) ∧
    (∃ s1 s2 : List Char, s1 ≠ s2 ∧ computeHash s1 = computeHash s2) :=
  ⟨fun s1 s2 h => by rw [h], fun s => rfl, computeHash_collision⟩
